import Mathlib

/-
Verification of the combined-batch training/validation loop of the riser
repository (src/riser/train.py) against its design specification.

The embedding models the loop's data flow over the external ML framework:
tensors, autograd, the optimizer and the loss function are abstracted as
black-box functions (ModelDyn below), exactly as the spec's scope declares
them external collaborators.  A batch (X, y) is modelled as the list of its
rows, so len(X) is the list length.  Loss values are rationals.

The CombinedLoader of pytorch_lightning (an external collaborator, used in
"max_size" mode) is modelled per its documented contract, restated in the
code's own comment: at each outer step every constituent loader yields its
next batch, and a loader that is exhausted yields the None sentinel for the
remaining steps; iteration runs until the longest loader is exhausted.
-/

namespace Riser

/-- The rows of one (X, y) batch produced by a source loader: each row is an
(input, label) pair.  The Python len(X) is the length of this list. -/
abbrev Batch (I L : Type) := List (I × L)

/-- One constituent DataLoader: its finite sequence of batches for an epoch
and the static size of its underlying dataset (Python len(loader.dataset),
an attribute read without iterating). -/
structure SourceLoader (I L : Type) where
  batches : List (Batch I L)
  datasetSize : Nat

/-- The CombinedLoader over named constituent loaders ("max_size" mode).
The field mirrors combined_loader.flattened, the list of constituent
loaders; each is paired with its dict key. -/
structure CombinedLoader (I L : Type) where
  flattened : List (String × SourceLoader I L)

/-- Python dict lookup over the named loaders.  In the program the dict keys
are distinct, so first-match lookup agrees with the dict. -/
def lookupLoader {I L : Type} : List (String × SourceLoader I L) → String → Option (SourceLoader I L)
  | [], _ => none
  | (k, l) :: rest, key => if key = k then some l else lookupLoader rest key

/-- Entry of the combined batch dict for a given key at outer step t:
the loader's t-th batch, or the None sentinel once it is exhausted
(CombinedLoader "max_size" contract).  A key absent from the dict would
raise KeyError in Python; every theorem below only instantiates keys that
are present. -/
def combinedBatch {I L : Type} (cl : CombinedLoader I L) (t : Nat) (key : String) :
    Option (Batch I L) :=
  (lookupLoader cl.flattened key).bind (fun l => l.batches[t]?)

/-- Number of outer steps of the CombinedLoader in "max_size" mode: the
maximum batch count among the constituent loaders. -/
def numSteps {I L : Type} (cl : CombinedLoader I L) : Nat :=
  (cl.flattened.map (fun e => e.2.batches.length)).foldr Nat.max 0

/-- count_batches_in_combined_loader of train.py: the sum of len(loader)
over the flattened constituent loaders. -/
def count_batches_in_combined_loader {I L : Type} (cl : CombinedLoader I L) : Nat :=
  (cl.flattened.map (fun e => e.2.batches.length)).sum

/-- count_samples_in_combined_loader of train.py: the sum of
len(loader.dataset) over the flattened constituent loaders. -/
def count_samples_in_combined_loader {I L : Type} (cl : CombinedLoader I L) : Nat :=
  (cl.flattened.map (fun e => e.2.datasetSize)).sum

/-- The external model/loss/optimizer collaborators, abstracted over the
parameter state P:
* lossFn p b  models loss_fn(model(X), y).item() evaluated at parameters p;
* update p b  models the parameter state after optimizer.zero_grad(),
  loss.backward(), optimizer.step() for batch b at parameters p;
* predict p x models the argmax over the class scores model(X) assigns to
  the single input row x at parameters p. -/
structure ModelDyn (I L P : Type) where
  lossFn : P → Batch I L → Rat
  update : P → Batch I L → P
  predict : P → I → L

/-- One progress record emitted by train's logging branch: the print and
writer.add_scalar calls expose the epoch, the sample figure
batch_n * len(X), the static total sample count, and the running average
loss total_loss / batch_n. -/
structure LogRecord where
  epoch : Nat
  sample : Nat
  n_samples : Nat
  avg_loss : Rat
deriving DecidableEq

/-- The mutable state of train's epoch loop.  params, total_loss, batch_n
and logs mirror the Python variables (logs collects the emitted progress
records); processed and losses are ghost instrumentation recording, in
order, each batch fed to a forward/backward pass and the loss it produced.
They are written only where the code performs the corresponding pass and
never influence the non-ghost fields. -/
structure TrainState (I L P : Type) where
  params : P
  total_loss : Rat
  batch_n : Nat
  logs : List LogRecord
  processed : List (Batch I L)
  losses : List Rat

/-- The body of train's inner loop for one bucket at one outer step: a None
sentinel is skipped (continue); otherwise the batch is run forward, its
loss accumulated, backpropagation/optimizer step applied, and when the
pre-increment batch counter batch_n is a nonzero multiple of log_freq a
progress record is emitted, after which batch_n is incremented.  Note that
the emitted average divides the already-updated total_loss by the
pre-increment batch_n, and the sample figure is batch_n * len(X) with X the
current batch.  Python would raise ZeroDivisionError when log_freq = 0 and
batch_n reaches 1; theorems therefore assume 0 < log_freq. -/
def processTrainBatch {I L P : Type} (M : ModelDyn I L P) (epoch n_samples log_freq : Nat)
    (s : TrainState I L P) : Option (Batch I L) → TrainState I L P
  | none => s
  | some b =>
    { params := M.update s.params b
      total_loss := s.total_loss + M.lossFn s.params b
      batch_n := s.batch_n + 1
      logs :=
        if s.batch_n ≠ 0 ∧ s.batch_n % log_freq = 0 then
          s.logs ++ [{ epoch := epoch
                       sample := s.batch_n * b.length
                       n_samples := n_samples
                       avg_loss := (s.total_loss + M.lossFn s.params b) / (s.batch_n : Rat) }]
        else s.logs
      processed := s.processed ++ [b]
      losses := s.losses ++ [M.lossFn s.params b] }

/-- One outer step of train: the buckets are visited in the order produced
by random.shuffle for this step, each taken from the combined batch dict f. -/
def trainStep {I L P : Type} (M : ModelDyn I L P) (epoch n_samples log_freq : Nat)
    (s : TrainState I L P) (order : List String) (f : String → Option (Batch I L)) :
    TrainState I L P :=
  order.foldl (fun s key => processTrainBatch M epoch n_samples log_freq s (f key)) s

/-- The hardcoded bucket identifiers of train.py: input_lengths. -/
def key2s : String := "2s"

def key3s : String := "3s"

def key4s : String := "4s"

def inputLengths : List String := [key2s, key3s, key4s]

/-- The whole epoch loop of train, given the per-step shuffled orders as an
oracle: orders t is the content of input_lengths after the shuffle at outer
step t (always a permutation of the three identifiers). -/
def trainRun {I L P : Type} (cl : CombinedLoader I L) (M : ModelDyn I L P) (p0 : P)
    (epoch : Nat) (orders : Nat → List String) (log_freq : Nat) : TrainState I L P :=
  (List.range (numSteps cl)).foldl
    (fun s t =>
      trainStep M epoch (count_samples_in_combined_loader cl) log_freq s (orders t)
        (combinedBatch cl t))
    { params := p0, total_loss := 0, batch_n := 0, logs := [], processed := [], losses := [] }

/-- train's return value: total_loss / n_batches with n_batches the static
batch count of the combined loader (Python raises ZeroDivisionError when it
is zero; theorems about the value assume it positive). -/
def train {I L P : Type} (cl : CombinedLoader I L) (M : ModelDyn I L P) (p0 : P)
    (epoch : Nat) (orders : Nat → List String) (log_freq : Nat) : Rat :=
  (trainRun cl M p0 epoch orders log_freq).total_loss /
    (count_batches_in_combined_loader cl : Rat)

/-- The mutable state of validate's loop: total_loss and n_correct mirror
the Python variables; params carries the model parameter snapshot, which no
statement of the loop writes (torch.no_grad plus no optimizer step);
processed and losses are the same ghost instrumentation as for training. -/
structure ValidState (I L P : Type) where
  params : P
  total_loss : Rat
  n_correct : Nat
  processed : List (Batch I L)
  losses : List Rat

/-- The body of validate's inner loop for one bucket at one outer step: a
None sentinel is skipped; otherwise the loss is accumulated and the count
of rows whose argmax prediction equals the label is added to n_correct. -/
def processValidBatch {I L P : Type} [DecidableEq L] (M : ModelDyn I L P)
    (s : ValidState I L P) : Option (Batch I L) → ValidState I L P
  | none => s
  | some b =>
    { params := s.params
      total_loss := s.total_loss + M.lossFn s.params b
      n_correct := s.n_correct + b.countP (fun xy => decide (M.predict s.params xy.1 = xy.2))
      processed := s.processed ++ [b]
      losses := s.losses ++ [M.lossFn s.params b] }

/-- One outer step of validate, visiting the buckets in the given order.
validate applies it at the fixed order inputLengths (no shuffle). -/
def validStep {I L P : Type} [DecidableEq L] (M : ModelDyn I L P) (s : ValidState I L P)
    (order : List String) (f : String → Option (Batch I L)) : ValidState I L P :=
  order.foldl (fun s key => processValidBatch M s (f key)) s

/-- The whole loop of validate: buckets always visited in the fixed order
input_lengths = ["2s", "3s", "4s"]. -/
def validRun {I L P : Type} [DecidableEq L] (cl : CombinedLoader I L) (M : ModelDyn I L P)
    (p0 : P) : ValidState I L P :=
  (List.range (numSteps cl)).foldl
    (fun s t => validStep M s inputLengths (combinedBatch cl t))
    { params := p0, total_loss := 0, n_correct := 0, processed := [], losses := [] }

/-- validate's return value: (avg_loss, acc) = (total_loss / n_batches,
n_correct / n_samples * 100), both denominators being the static totals. -/
def validate {I L P : Type} [DecidableEq L] (cl : CombinedLoader I L) (M : ModelDyn I L P)
    (p0 : P) : Rat × Rat :=
  ((validRun cl M p0).total_loss / (count_batches_in_combined_loader cl : Rat),
   ((validRun cl M p0).n_correct : Rat) / (count_samples_in_combined_loader cl : Rat) * 100)

/-- The checkpoint bookkeeping state of main's epoch loop: best_acc and
best_epoch mirror the Python variables; best_saves and latest_saves record,
in order, each torch.save of the best-model file and of the latest-model
file together with the epoch and (for best) the accuracy at which it
happened. -/
structure CkptState (P : Type) where
  best_acc : Rat
  best_epoch : Nat
  best_saves : List (Nat × Rat × P)
  latest_saves : List (Nat × P)

/-- The checkpointing tail of one iteration of main's epoch loop (after
training and validation): if val_acc strictly exceeds best_acc, update the
best record and persist a best snapshot; then unconditionally persist a
latest snapshot. -/
def ckptStep {P : Type} (s : CkptState P) (t : Nat) (val_acc : Rat) (p : P) : CkptState P :=
  let s1 :=
    if s.best_acc < val_acc then
      { best_acc := val_acc
        best_epoch := t
        best_saves := s.best_saves ++ [(t, val_acc, p)]
        latest_saves := s.latest_saves }
    else s
  { s1 with latest_saves := s1.latest_saves ++ [(t, p)] }

/-- main's epoch loop for t in range(start_epoch, n_epochs), abstracting
each epoch's validation accuracy and post-epoch parameter snapshot as
oracles accs and ps; best_acc and best_epoch start at 0. -/
def epochDriver {P : Type} (accs : Nat → Rat) (ps : Nat → P) (start_epoch n_epochs : Nat) :
    CkptState P :=
  (List.range' start_epoch (n_epochs - start_epoch)).foldl
    (fun s t => ckptStep s t (accs t) (ps t))
    { best_acc := 0, best_epoch := 0, best_saves := [], latest_saves := [] }

/-- main's resume precondition: with a checkpoint supplied, assert
start_epoch > 0; with none, assert start_epoch == 0 (start_epoch comes from
int(sys.argv[5]) and may be negative, hence Int).  false models the
AssertionError aborting the run. -/
def resumePrecondition (checkpt : Option String) (start_epoch : Int) : Bool :=
  match checkpt with
  | some _ => decide (0 < start_epoch)
  | none => decide (start_epoch = 0)

/-- countP of the at-most-one element of an optional value. -/
def optCountP {β : Type} (p : β → Bool) : Option β → Nat
  | none => 0
  | some v => if p v then 1 else 0

/-- The progress records train's logging branch has emitted, as a function
of the ghost history: one record for each processed-batch index k (0-based)
that is nonzero and divisible by log_freq, carrying the sample figure
k * (length of the k-th processed batch) and the average
(sum of the first k+1 losses) / k. -/
def expectedLogs {I L : Type} (epoch n_samples log_freq : Nat)
    (processed : List (Batch I L)) (losses : List Rat) : List LogRecord :=
  ((List.range processed.length).filter
      (fun k => decide (k ≠ 0 ∧ k % log_freq = 0))).map
    (fun k =>
      { epoch := epoch
        sample := k * ((processed[k]?).getD []).length
        n_samples := n_samples
        avg_loss := (losses.take (k + 1)).sum / (k : Rat) })

/-- Loop invariant of train: batch_n counts the processed batches, losses
lists their losses in order, total_loss is their sum, and logs holds
exactly the records described by expectedLogs. -/
def TrainInv {I L P : Type} (epoch n_samples log_freq : Nat) (s : TrainState I L P) : Prop :=
  s.batch_n = s.processed.length ∧
  s.losses.length = s.processed.length ∧
  s.total_loss = s.losses.sum ∧
  s.logs = expectedLogs epoch n_samples log_freq s.processed s.losses

/-- Loop invariant of validate: the parameter snapshot never changes,
total_loss is the sum of the recorded losses, and n_correct counts the
processed rows whose argmax prediction (at the unchanged parameters)
equals their label. -/
def ValidInv {I L P : Type} [DecidableEq L] (M : ModelDyn I L P) (p0 : P)
    (s : ValidState I L P) : Prop :=
  s.params = p0 ∧
  s.total_loss = s.losses.sum ∧
  s.n_correct = s.processed.flatten.countP (fun xy => decide (M.predict p0 xy.1 = xy.2))

/-- The combined loader main builds for training and validation: the dict
of the three duration buckets in literal order. -/
def threeLoaders {I L : Type} (l2 l3 l4 : SourceLoader I L) : CombinedLoader I L :=
  { flattened := [(key2s, l2), (key3s, l3), (key4s, l4)] }

/-- A combined loader with one additional constituent under a further key,
used to express that train/validate only ever read the three hardcoded
keys. -/
def fourLoaders {I L : Type} (l2 l3 l4 : SourceLoader I L) (k : String)
    (lx : SourceLoader I L) : CombinedLoader I L :=
  { flattened := [(key2s, l2), (key3s, l3), (key4s, l4), (k, lx)] }

/-- A concrete instantiation of the external collaborators, used by the
closed witness and counterexample theorems: constant unit loss, parameters
never moved by the optimizer, prediction echoing the input. -/
def constModel : ModelDyn Nat Nat Nat :=
  { lossFn := fun _ _ => 1
    update := fun p _ => p
    predict := fun _ x => x }

/-- The combined loader used by the concrete witnesses: bucket 2s has two
batches, bucket 3s one batch, bucket 4s none. -/
def witnessLoader : CombinedLoader Nat Nat :=
  threeLoaders (SourceLoader.mk [[(1, 1)], [(2, 2)]] 2)
    (SourceLoader.mk [[(3, 3)]] 1) (SourceLoader.mk ([] : List (Batch Nat Nat)) 0)

/-- The shuffled order used by the concrete train witnesses at every step:
a transposition of the canonical bucket order. -/
def witnessOrders : Nat → List String := fun _ => [key3s, key2s, key4s]

/-- The extra bucket key used by the C9 witness. -/
def key5s : String := "5s"

/-- The checkpoint file name used in the resume-precondition witness
cases. -/
def ckptName : String := "best_model.pth"

/-! Ghost bookkeeping: the processed-batch history of the folds. -/

theorem processTrainBatch_processed {I L P : Type} (M : ModelDyn I L P)
    (epoch n_samples log_freq : Nat) (s : TrainState I L P) (ob : Option (Batch I L)) :
    (processTrainBatch M epoch n_samples log_freq s ob).processed
      = s.processed ++ ob.toList := by
  cases ob <;> simp [processTrainBatch]

theorem trainStep_processed {I L P : Type} (M : ModelDyn I L P)
    (epoch n_samples log_freq : Nat) (order : List String)
    (f : String → Option (Batch I L)) (s : TrainState I L P) :
    (trainStep M epoch n_samples log_freq s order f).processed
      = s.processed ++ order.filterMap f := by
  induction order generalizing s with
  | nil => simp [trainStep]
  | cons a rest ih =>
    simp only [trainStep, List.foldl_cons] at ih ⊢
    rw [ih]
    cases h : f a with
    | none => simp [processTrainBatch, List.filterMap_cons, h]
    | some b => simp [processTrainBatch, List.filterMap_cons, h]

theorem trainFold_processed {I L P : Type} (M : ModelDyn I L P)
    (epoch n_samples log_freq : Nat) (orders : Nat → List String)
    (g : Nat → String → Option (Batch I L)) (ts : List Nat) (s : TrainState I L P) :
    ((ts.foldl (fun s t => trainStep M epoch n_samples log_freq s (orders t) (g t)) s).processed)
      = s.processed ++ (ts.map (fun t => (orders t).filterMap (g t))).flatten := by
  induction ts generalizing s with
  | nil => simp
  | cons t ts ih =>
    simp only [List.foldl_cons, List.map_cons, List.flatten_cons]
    rw [ih, trainStep_processed, List.append_assoc]

theorem processValidBatch_processed {I L P : Type} [DecidableEq L] (M : ModelDyn I L P)
    (s : ValidState I L P) (ob : Option (Batch I L)) :
    (processValidBatch M s ob).processed = s.processed ++ ob.toList := by
  cases ob <;> simp [processValidBatch]

theorem validStep_processed {I L P : Type} [DecidableEq L] (M : ModelDyn I L P)
    (order : List String) (f : String → Option (Batch I L)) (s : ValidState I L P) :
    (validStep M s order f).processed = s.processed ++ order.filterMap f := by
  induction order generalizing s with
  | nil => simp [validStep]
  | cons a rest ih =>
    simp only [validStep, List.foldl_cons] at ih ⊢
    rw [ih]
    cases h : f a with
    | none => simp [processValidBatch, List.filterMap_cons, h]
    | some b => simp [processValidBatch, List.filterMap_cons, h]

theorem validFold_processed {I L P : Type} [DecidableEq L] (M : ModelDyn I L P)
    (orders : Nat → List String) (g : Nat → String → Option (Batch I L))
    (ts : List Nat) (s : ValidState I L P) :
    ((ts.foldl (fun s t => validStep M s (orders t) (g t)) s).processed)
      = s.processed ++ (ts.map (fun t => (orders t).filterMap (g t))).flatten := by
  induction ts generalizing s with
  | nil => simp
  | cons t ts ih =>
    simp only [List.foldl_cons, List.map_cons, List.flatten_cons]
    rw [ih, validStep_processed, List.append_assoc]

/-! Counting machinery for the fairness/exhaustion property. -/


theorem sum_map_add (l : List Nat) (f g : Nat → Nat) :
    (l.map (fun t => f t + g t)).sum = (l.map f).sum + (l.map g).sum := by
  induction l with
  | nil => simp
  | cons a l ih =>
    simp only [List.map_cons, List.sum_cons, ih]
    omega

theorem sum_optCountP_getElem {β : Type} (p : β → Bool) (l : List β)
    (m : Nat) (hm : l.length ≤ m) :
    ((List.range m).map (fun t => optCountP p l[t]?)).sum = l.countP p := by
  induction l generalizing m with
  | nil => simp [optCountP]
  | cons a l ih =>
    match m, hm with
    | m + 1, hm =>
      rw [List.range_succ_eq_map]
      simp only [List.map_cons, List.map_map, List.sum_cons]
      have h1 : ((List.range m).map
          ((fun t => optCountP p (a :: l)[t]?) ∘ Nat.succ)).sum
          = ((List.range m).map (fun t => optCountP p l[t]?)).sum := by
        apply congrArg
        apply List.map_congr_left
        intro t _
        simp [Function.comp]
      rw [h1, ih m (by simpa using hm)]
      by_cases hab : p a <;> simp [hab, optCountP, List.countP_cons] <;> omega

theorem filterMap_cons_toList {α β : Type} (f : α → Option β) (a : α) (l : List α) :
    List.filterMap f (a :: l) = (f a).toList ++ List.filterMap f l := by
  cases h : f a <;> simp [List.filterMap_cons, h]

theorem countP_toList {β : Type} (p : β → Bool) (o : Option β) :
    o.toList.countP p = optCountP p o := by
  cases o <;> simp [optCountP, List.countP_cons]

theorem countP_filterMap_inputLengths {β : Type} (p : β → Bool)
    (f : String → Option β) :
    (inputLengths.filterMap f).countP p
      = optCountP p (f key2s) + optCountP p (f key3s) + optCountP p (f key4s) := by
  simp only [inputLengths, filterMap_cons_toList, List.filterMap_nil, List.append_nil,
    List.countP_append, countP_toList]
  omega

/-- countP version of the fairness fact: over m outer steps covering every
loader's length, the batches drawn through the hardcoded keys in per-step
shuffled order carry the same counts as the three loaders' batch lists. -/
theorem consumed_countP {I L : Type}
    (cl : CombinedLoader I L) (l2 l3 l4 : SourceLoader I L)
    (orders : Nat → List String) (m : Nat)
    (h2 : lookupLoader cl.flattened key2s = some l2)
    (h3 : lookupLoader cl.flattened key3s = some l3)
    (h4 : lookupLoader cl.flattened key4s = some l4)
    (hm2 : l2.batches.length ≤ m) (hm3 : l3.batches.length ≤ m)
    (hm4 : l4.batches.length ≤ m)
    (ho : ∀ t, (orders t).Perm inputLengths)
    (p : Batch I L → Bool) :
    List.countP p (((List.range m).map
        (fun t => (orders t).filterMap (combinedBatch cl t))).flatten)
      = List.countP p (l2.batches ++ l3.batches ++ l4.batches) := by
  rw [List.countP_flatten, List.map_map]
  have hstep : ∀ t ∈ List.range m,
      (List.countP p ∘ fun t => (orders t).filterMap (combinedBatch cl t)) t
        = optCountP p l2.batches[t]? + optCountP p l3.batches[t]?
            + optCountP p l4.batches[t]? := by
    intro t _
    simp only [Function.comp]
    rw [((ho t).filterMap (combinedBatch cl t)).countP_eq p]
    rw [countP_filterMap_inputLengths]
    simp [combinedBatch, h2, h3, h4]
  rw [List.map_congr_left hstep]
  rw [sum_map_add (List.range m)
      (fun t => optCountP p l2.batches[t]? + optCountP p l3.batches[t]?)
      (fun t => optCountP p l4.batches[t]?)]
  rw [sum_map_add (List.range m)
      (fun t => optCountP p l2.batches[t]?) (fun t => optCountP p l3.batches[t]?)]
  rw [sum_optCountP_getElem p l2.batches m hm2, sum_optCountP_getElem p l3.batches m hm3,
    sum_optCountP_getElem p l4.batches m hm4]
  simp only [List.countP_append]

/-- Core fairness fact, as a permutation. -/
theorem consumed_perm {I L : Type} [DecidableEq I] [DecidableEq L]
    (cl : CombinedLoader I L) (l2 l3 l4 : SourceLoader I L)
    (orders : Nat → List String) (m : Nat)
    (h2 : lookupLoader cl.flattened key2s = some l2)
    (h3 : lookupLoader cl.flattened key3s = some l3)
    (h4 : lookupLoader cl.flattened key4s = some l4)
    (hm2 : l2.batches.length ≤ m) (hm3 : l3.batches.length ≤ m)
    (hm4 : l4.batches.length ≤ m)
    (ho : ∀ t, (orders t).Perm inputLengths) :
    (((List.range m).map (fun t => (orders t).filterMap (combinedBatch cl t))).flatten).Perm
      (l2.batches ++ l3.batches ++ l4.batches) := by
  rw [List.perm_iff_count]
  intro b
  simp only [List.count_eq_countP]
  exact consumed_countP cl l2 l3 l4 orders m h2 h3 h4 hm2 hm3 hm4 ho _

/-! Invariant of the training fold, tying the code's counters to the ghost
history of processed batches and losses. -/



theorem expectedLogs_append {I L : Type} (epoch n_samples log_freq : Nat)
    (pr : List (Batch I L)) (lo : List Rat) (b : Batch I L) (l : Rat)
    (hlen : lo.length = pr.length) :
    expectedLogs epoch n_samples log_freq (pr ++ [b]) (lo ++ [l])
      = expectedLogs epoch n_samples log_freq pr lo ++
        (if pr.length ≠ 0 ∧ pr.length % log_freq = 0 then
            [{ epoch := epoch
               sample := pr.length * b.length
               n_samples := n_samples
               avg_loss := (lo.sum + l) / (pr.length : Rat) }]
          else []) := by
  unfold expectedLogs
  rw [show (pr ++ [b]).length = pr.length + 1 from by simp]
  rw [show List.range (pr.length + 1) = List.range pr.length ++ [pr.length] from by
    simp [List.range_succ]]
  rw [List.filter_append, List.map_append]
  congr 1
  · apply List.map_congr_left
    intro k hk
    have hk' : k < pr.length := List.mem_range.mp (List.mem_filter.mp hk).1
    have hg : (pr ++ [b])[k]? = pr[k]? := List.getElem?_append_left hk'
    have ht : (lo ++ [l]).take (k + 1) = lo.take (k + 1) :=
      List.take_append_of_le_length (by omega)
    rw [hg, ht]
  · by_cases hc : pr.length ≠ 0 ∧ pr.length % log_freq = 0
    · rw [if_pos hc]
      have hf : List.filter (fun k => decide (k ≠ 0 ∧ k % log_freq = 0)) [pr.length]
          = [pr.length] := by
        simp [List.filter_cons, hc]
      rw [hf]
      have hg : ((pr ++ [b])[pr.length]?).getD [] = b := by simp
      have ht : (lo ++ [l]).take (pr.length + 1) = lo ++ [l] := by
        apply List.take_of_length_le
        simp [hlen]
      simp only [List.map_cons, List.map_nil, hg, ht]
      simp
    · rw [if_neg hc]
      have hf : List.filter (fun k => decide (k ≠ 0 ∧ k % log_freq = 0)) [pr.length]
          = [] := by
        simp only [List.filter_cons, List.filter_nil, decide_eq_true_eq]
        rw [if_neg hc]
      rw [hf]
      simp

theorem processTrainBatch_inv {I L P : Type} (M : ModelDyn I L P)
    (epoch n_samples log_freq : Nat) (s : TrainState I L P) (ob : Option (Batch I L))
    (h : TrainInv epoch n_samples log_freq s) :
    TrainInv epoch n_samples log_freq (processTrainBatch M epoch n_samples log_freq s ob) := by
  obtain ⟨h1, h2, h3, h4⟩ := h
  cases ob with
  | none => exact ⟨h1, h2, h3, h4⟩
  | some b =>
    refine ⟨?_, ?_, ?_, ?_⟩
    · simp [processTrainBatch]
      omega
    · simp [processTrainBatch]
      omega
    · simp [processTrainBatch, h3]
    · simp only [processTrainBatch]
      rw [expectedLogs_append epoch n_samples log_freq s.processed s.losses b
          (M.lossFn s.params b) h2]
      rw [h4, h1, h3]
      by_cases hc : s.processed.length ≠ 0 ∧ s.processed.length % log_freq = 0
      · rw [if_pos hc, if_pos hc]
      · rw [if_neg hc, if_neg hc, List.append_nil]

theorem trainStep_inv {I L P : Type} (M : ModelDyn I L P)
    (epoch n_samples log_freq : Nat) (order : List String)
    (f : String → Option (Batch I L)) (s : TrainState I L P)
    (h : TrainInv epoch n_samples log_freq s) :
    TrainInv epoch n_samples log_freq (trainStep M epoch n_samples log_freq s order f) := by
  induction order generalizing s with
  | nil => exact h
  | cons a rest ih =>
    simp only [trainStep, List.foldl_cons] at ih ⊢
    exact ih _ (processTrainBatch_inv M epoch n_samples log_freq s (f a) h)

theorem trainFold_inv {I L P : Type} (M : ModelDyn I L P)
    (epoch n_samples log_freq : Nat) (orders : Nat → List String)
    (g : Nat → String → Option (Batch I L)) (ts : List Nat) (s : TrainState I L P)
    (h : TrainInv epoch n_samples log_freq s) :
    TrainInv epoch n_samples log_freq
      (ts.foldl (fun s t => trainStep M epoch n_samples log_freq s (orders t) (g t)) s) := by
  induction ts generalizing s with
  | nil => exact h
  | cons t ts ih =>
    simp only [List.foldl_cons]
    exact ih _ (trainStep_inv M epoch n_samples log_freq (orders t) (g t) s h)

theorem trainRun_inv {I L P : Type} (cl : CombinedLoader I L) (M : ModelDyn I L P) (p0 : P)
    (epoch : Nat) (orders : Nat → List String) (log_freq : Nat) :
    TrainInv epoch (count_samples_in_combined_loader cl) log_freq
      (trainRun cl M p0 epoch orders log_freq) := by
  unfold trainRun
  exact trainFold_inv M epoch (count_samples_in_combined_loader cl) log_freq orders
    (combinedBatch cl) (List.range (numSteps cl)) _ ⟨rfl, rfl, rfl, by simp [expectedLogs]⟩

/-! Invariant of the validation fold. -/


theorem processValidBatch_inv {I L P : Type} [DecidableEq L] (M : ModelDyn I L P) (p0 : P)
    (s : ValidState I L P) (ob : Option (Batch I L)) (h : ValidInv M p0 s) :
    ValidInv M p0 (processValidBatch M s ob) := by
  obtain ⟨h1, h2, h3⟩ := h
  cases ob with
  | none => exact ⟨h1, h2, h3⟩
  | some b =>
    refine ⟨h1, ?_, ?_⟩
    · simp [processValidBatch, h2]
    · simp [processValidBatch, List.countP_append, h3, h1]

theorem validStep_inv {I L P : Type} [DecidableEq L] (M : ModelDyn I L P) (p0 : P)
    (order : List String) (f : String → Option (Batch I L)) (s : ValidState I L P)
    (h : ValidInv M p0 s) : ValidInv M p0 (validStep M s order f) := by
  induction order generalizing s with
  | nil => exact h
  | cons a rest ih =>
    simp only [validStep, List.foldl_cons] at ih ⊢
    exact ih _ (processValidBatch_inv M p0 s (f a) h)

theorem validFold_inv {I L P : Type} [DecidableEq L] (M : ModelDyn I L P) (p0 : P)
    (orders : Nat → List String) (g : Nat → String → Option (Batch I L))
    (ts : List Nat) (s : ValidState I L P) (h : ValidInv M p0 s) :
    ValidInv M p0 (ts.foldl (fun s t => validStep M s (orders t) (g t)) s) := by
  induction ts generalizing s with
  | nil => exact h
  | cons t ts ih =>
    simp only [List.foldl_cons]
    exact ih _ (validStep_inv M p0 (orders t) (g t) s h)

theorem validRun_inv {I L P : Type} [DecidableEq L] (cl : CombinedLoader I L)
    (M : ModelDyn I L P) (p0 : P) : ValidInv M p0 (validRun cl M p0) := by
  unfold validRun
  exact validFold_inv M p0 (fun _ => inputLengths) (combinedBatch cl)
    (List.range (numSteps cl)) _ ⟨rfl, rfl, by simp⟩

theorem trainRun_processed_eq {I L P : Type} (cl : CombinedLoader I L) (M : ModelDyn I L P)
    (p0 : P) (epoch : Nat) (orders : Nat → List String) (log_freq : Nat) :
    (trainRun cl M p0 epoch orders log_freq).processed
      = ((List.range (numSteps cl)).map
          (fun t => (orders t).filterMap (combinedBatch cl t))).flatten := by
  unfold trainRun
  rw [trainFold_processed]
  simp

theorem validRun_processed_eq {I L P : Type} [DecidableEq L] (cl : CombinedLoader I L)
    (M : ModelDyn I L P) (p0 : P) :
    (validRun cl M p0).processed
      = ((List.range (numSteps cl)).map
          (fun t => inputLengths.filterMap (combinedBatch cl t))).flatten := by
  unfold validRun
  rw [validFold_processed M (fun _ => inputLengths) (combinedBatch cl)]
  simp



theorem le_foldr_max (l : List Nat) (a : Nat) (h : a ∈ l) : a ≤ l.foldr Nat.max 0 := by
  induction l with
  | nil => cases h
  | cons b l ih =>
    rcases List.mem_cons.mp h with rfl | h
    · exact Nat.le_max_left _ _
    · exact Nat.le_trans (ih h) (Nat.le_max_right _ _)

theorem length_le_numSteps {I L : Type} (cl : CombinedLoader I L) (k : String)
    (l : SourceLoader I L) (h : (k, l) ∈ cl.flattened) :
    l.batches.length ≤ numSteps cl := by
  apply le_foldr_max
  exact List.mem_map.mpr ⟨(k, l), h, rfl⟩

theorem threeLoaders_lookup {I L : Type} (l2 l3 l4 : SourceLoader I L) :
    lookupLoader (threeLoaders l2 l3 l4).flattened key2s = some l2 ∧
      lookupLoader (threeLoaders l2 l3 l4).flattened key3s = some l3 ∧
      lookupLoader (threeLoaders l2 l3 l4).flattened key4s = some l4 := by
  refine ⟨?_, ?_, ?_⟩ <;> simp [threeLoaders, lookupLoader, key2s, key3s, key4s]

theorem fourLoaders_lookup {I L : Type} (l2 l3 l4 lx : SourceLoader I L) (k : String) :
    lookupLoader (fourLoaders l2 l3 l4 k lx).flattened key2s = some l2 ∧
      lookupLoader (fourLoaders l2 l3 l4 k lx).flattened key3s = some l3 ∧
      lookupLoader (fourLoaders l2 l3 l4 k lx).flattened key4s = some l4 := by
  refine ⟨?_, ?_, ?_⟩ <;> simp [fourLoaders, lookupLoader, key2s, key3s, key4s]

/-- Claim C1: an epoch of train (for any per-step shuffle orders) or of
validate over the combined stream of the three duration buckets performs
exactly n2+n3+n4 forward passes, and the multiset of batches processed is
exactly the batches of the three sources, each consumed once: the ghost
history is a permutation of the concatenation of the sources' batch lists,
and the processed-batch counter equals the sum of the static batch counts. -/
theorem c1_epoch_consumes_each_source_exactly_once {I L P : Type}
    [DecidableEq I] [DecidableEq L]
    (l2 l3 l4 : SourceLoader I L) (M : ModelDyn I L P) (p0 : P)
    (epoch log_freq : Nat) (orders : Nat → List String)
    (hlf : 0 < log_freq)
    (ho : ∀ t, (orders t).Perm inputLengths) :
    ((trainRun (threeLoaders l2 l3 l4) M p0 epoch orders log_freq).processed).Perm
        (l2.batches ++ l3.batches ++ l4.batches) ∧
      (trainRun (threeLoaders l2 l3 l4) M p0 epoch orders log_freq).batch_n
        = l2.batches.length + l3.batches.length + l4.batches.length ∧
      ((validRun (threeLoaders l2 l3 l4) M p0).processed).Perm
        (l2.batches ++ l3.batches ++ l4.batches) ∧
      ((validRun (threeLoaders l2 l3 l4) M p0).processed).length
        = l2.batches.length + l3.batches.length + l4.batches.length := by
  obtain ⟨h2, h3, h4⟩ := threeLoaders_lookup l2 l3 l4
  have hm2 : l2.batches.length ≤ numSteps (threeLoaders l2 l3 l4) :=
    length_le_numSteps _ key2s l2 (by simp [threeLoaders])
  have hm3 : l3.batches.length ≤ numSteps (threeLoaders l2 l3 l4) :=
    length_le_numSteps _ key3s l3 (by simp [threeLoaders])
  have hm4 : l4.batches.length ≤ numSteps (threeLoaders l2 l3 l4) :=
    length_le_numSteps _ key4s l4 (by simp [threeLoaders])
  have htr : ((trainRun (threeLoaders l2 l3 l4) M p0 epoch orders log_freq).processed).Perm
      (l2.batches ++ l3.batches ++ l4.batches) := by
    rw [trainRun_processed_eq]
    exact consumed_perm _ l2 l3 l4 orders _ h2 h3 h4 hm2 hm3 hm4 ho
  have hva : ((validRun (threeLoaders l2 l3 l4) M p0).processed).Perm
      (l2.batches ++ l3.batches ++ l4.batches) := by
    rw [validRun_processed_eq]
    exact consumed_perm _ l2 l3 l4 (fun _ => inputLengths) _ h2 h3 h4 hm2 hm3 hm4
      (fun _ => List.Perm.refl inputLengths)
  refine ⟨htr, ?_, hva, ?_⟩
  · rw [(trainRun_inv (threeLoaders l2 l3 l4) M p0 epoch orders log_freq).1]
    rw [htr.length_eq]
    simp only [List.length_append]
  · rw [hva.length_eq]
    simp only [List.length_append]




/-- Witness for C1 at a concrete stream. -/
theorem c1_witness :
    (0 : Nat) < 2 ∧
    (∀ t : Nat, (witnessOrders t).Perm inputLengths) ∧
    ((trainRun witnessLoader constModel 0 7 witnessOrders 2).processed).Perm
        ([[(1, 1)], [(2, 2)]] ++ [[(3, 3)]] ++ []) ∧
    (trainRun witnessLoader constModel 0 7 witnessOrders 2).batch_n = 2 + 1 + 0 ∧
    ((validRun witnessLoader constModel 0).processed).Perm
        ([[(1, 1)], [(2, 2)]] ++ [[(3, 3)]] ++ []) ∧
    ((validRun witnessLoader constModel 0).processed).length = 2 + 1 + 0 := by
  have ho : ∀ t : Nat, (witnessOrders t).Perm inputLengths :=
    fun _ => List.Perm.swap key2s key3s [key4s]
  refine ⟨by decide, ho, ?_⟩
  have h := c1_epoch_consumes_each_source_exactly_once
    (SourceLoader.mk [[(1, 1)], [(2, 2)]] 2) (SourceLoader.mk [[(3, 3)]] 1)
    (SourceLoader.mk ([] : List (Batch Nat Nat)) 0) constModel 0 7 2
    witnessOrders (by decide) ho
  exact ⟨h.1, h.2.1, h.2.2.1, h.2.2.2⟩

/-- Claim C9: train and validate read only the hardcoded bucket keys "2s",
"3s", "4s" from each combined step.  Over a combined loader carrying a
further constituent under a distinct key k, the processed batches are still
exactly those of the three hardcoded buckets (the extra loader's batches are
never processed), while the static batch and sample totals used for
averaging do sum over all four constituents. -/
theorem c9_only_hardcoded_buckets_processed {I L P : Type}
    [DecidableEq I] [DecidableEq L]
    (l2 l3 l4 lx : SourceLoader I L) (k : String) (M : ModelDyn I L P) (p0 : P)
    (epoch log_freq : Nat) (orders : Nat → List String)
    (hk : k ∉ inputLengths)
    (hlf : 0 < log_freq)
    (ho : ∀ t, (orders t).Perm inputLengths) :
    ((trainRun (fourLoaders l2 l3 l4 k lx) M p0 epoch orders log_freq).processed).Perm
        (l2.batches ++ l3.batches ++ l4.batches) ∧
      ((validRun (fourLoaders l2 l3 l4 k lx) M p0).processed).Perm
        (l2.batches ++ l3.batches ++ l4.batches) ∧
      count_batches_in_combined_loader (fourLoaders l2 l3 l4 k lx)
        = l2.batches.length + l3.batches.length + l4.batches.length + lx.batches.length ∧
      count_samples_in_combined_loader (fourLoaders l2 l3 l4 k lx)
        = l2.datasetSize + l3.datasetSize + l4.datasetSize + lx.datasetSize := by
  obtain ⟨h2, h3, h4⟩ := fourLoaders_lookup l2 l3 l4 lx k
  have hm2 : l2.batches.length ≤ numSteps (fourLoaders l2 l3 l4 k lx) :=
    length_le_numSteps _ key2s l2 (by simp [fourLoaders])
  have hm3 : l3.batches.length ≤ numSteps (fourLoaders l2 l3 l4 k lx) :=
    length_le_numSteps _ key3s l3 (by simp [fourLoaders])
  have hm4 : l4.batches.length ≤ numSteps (fourLoaders l2 l3 l4 k lx) :=
    length_le_numSteps _ key4s l4 (by simp [fourLoaders])
  refine ⟨?_, ?_, ?_, ?_⟩
  · rw [trainRun_processed_eq]
    exact consumed_perm _ l2 l3 l4 orders _ h2 h3 h4 hm2 hm3 hm4 ho
  · rw [validRun_processed_eq]
    exact consumed_perm _ l2 l3 l4 (fun _ => inputLengths) _ h2 h3 h4 hm2 hm3 hm4
      (fun _ => List.Perm.refl inputLengths)
  · simp [count_batches_in_combined_loader, fourLoaders]
    omega
  · simp [count_samples_in_combined_loader, fourLoaders]
    omega


/-- Witness for C9 at a concrete stream with an extra bucket keyed "5s"
whose single batch is never processed even though it raises the static
totals. -/
theorem c9_witness :
    key5s ∉ inputLengths ∧ (0 : Nat) < 2 ∧
    (∀ t : Nat, (witnessOrders t).Perm inputLengths) ∧
    ((trainRun (fourLoaders (SourceLoader.mk [[(1, 1)], [(2, 2)]] 2)
          (SourceLoader.mk [[(3, 3)]] 1) (SourceLoader.mk ([] : List (Batch Nat Nat)) 0)
          key5s (SourceLoader.mk [[(9, 9)]] 1)) constModel 0 7 witnessOrders 2).processed).Perm
        ([[(1, 1)], [(2, 2)]] ++ [[(3, 3)]] ++ []) ∧
    ((validRun (fourLoaders (SourceLoader.mk [[(1, 1)], [(2, 2)]] 2)
          (SourceLoader.mk [[(3, 3)]] 1) (SourceLoader.mk ([] : List (Batch Nat Nat)) 0)
          key5s (SourceLoader.mk [[(9, 9)]] 1)) constModel 0).processed).Perm
        ([[(1, 1)], [(2, 2)]] ++ [[(3, 3)]] ++ []) ∧
    count_batches_in_combined_loader (fourLoaders (SourceLoader.mk [[(1, 1)], [(2, 2)]] 2)
          (SourceLoader.mk [[(3, 3)]] 1) (SourceLoader.mk ([] : List (Batch Nat Nat)) 0)
          key5s (SourceLoader.mk [[(9, 9)]] 1)) = 2 + 1 + 0 + 1 ∧
    count_samples_in_combined_loader (fourLoaders (SourceLoader.mk [[(1, 1)], [(2, 2)]] 2)
          (SourceLoader.mk [[(3, 3)]] 1) (SourceLoader.mk ([] : List (Batch Nat Nat)) 0)
          key5s (SourceLoader.mk [[(9, 9)]] 1)) = 2 + 1 + 0 + 1 := by
  have ho : ∀ t : Nat, (witnessOrders t).Perm inputLengths :=
    fun _ => List.Perm.swap key2s key3s [key4s]
  refine ⟨by decide, by decide, ho, ?_⟩
  have h := c9_only_hardcoded_buckets_processed
    (SourceLoader.mk [[(1, 1)], [(2, 2)]] 2) (SourceLoader.mk [[(3, 3)]] 1)
    (SourceLoader.mk ([] : List (Batch Nat Nat)) 0) (SourceLoader.mk [[(9, 9)]] 1)
    key5s constModel 0 7 2 witnessOrders (by decide) (by decide) ho
  exact ⟨h.1, h.2.1, h.2.2.1, h.2.2.2⟩

/-! Checkpoint selection. -/

theorem ckptStep_best_saves {P : Type} (s : CkptState P) (t : Nat) (a : Rat) (p : P) :
    (ckptStep s t a p).best_saves
      = if s.best_acc < a then s.best_saves ++ [(t, a, p)] else s.best_saves := by
  by_cases h : s.best_acc < a <;> simp [ckptStep, h]

theorem ckptStep_latest_saves {P : Type} (s : CkptState P) (t : Nat) (a : Rat) (p : P) :
    (ckptStep s t a p).latest_saves = s.latest_saves ++ [(t, p)] := by
  by_cases h : s.best_acc < a <;> simp [ckptStep, h]

theorem ckptStep_best_acc_le {P : Type} (s : CkptState P) (t : Nat) (a : Rat) (p : P) :
    s.best_acc ≤ (ckptStep s t a p).best_acc := by
  by_cases h : s.best_acc < a <;> simp [ckptStep, h]
  exact le_of_lt h

theorem ckptFold_latest {P : Type} (accs : Nat → Rat) (ps : Nat → P) (ts : List Nat)
    (s : CkptState P) :
    ((ts.foldl (fun s t => ckptStep s t (accs t) (ps t)) s).latest_saves)
      = s.latest_saves ++ ts.map (fun t => (t, ps t)) := by
  induction ts generalizing s with
  | nil => simp
  | cons t ts ih =>
    simp only [List.foldl_cons, List.map_cons]
    rw [ih, ckptStep_latest_saves, List.append_assoc]
    simp

/-- Claim C2: a best snapshot is persisted at an epoch exactly when that
epoch's validation accuracy strictly exceeds the best recorded so far, the
recorded best accuracy never decreases (per step and when the run is
extended by an epoch), and a latest snapshot is persisted unconditionally
at every epoch of the run. -/
theorem c2_checkpoint_policy {P : Type} :
    (∀ (s : CkptState P) (t : Nat) (a : Rat) (p : P),
        (ckptStep s t a p).best_saves
          = (if s.best_acc < a then s.best_saves ++ [(t, a, p)] else s.best_saves) ∧
        (ckptStep s t a p).latest_saves = s.latest_saves ++ [(t, p)] ∧
        s.best_acc ≤ (ckptStep s t a p).best_acc) ∧
    (∀ (accs : Nat → Rat) (ps : Nat → P) (a n : Nat),
        (epochDriver accs ps a n).best_acc ≤ (epochDriver accs ps a (n + 1)).best_acc) ∧
    (∀ (accs : Nat → Rat) (ps : Nat → P) (a n : Nat),
        (epochDriver accs ps a n).latest_saves
          = (List.range' a (n - a)).map (fun t => (t, ps t))) := by
  refine ⟨fun s t a p => ⟨ckptStep_best_saves s t a p, ckptStep_latest_saves s t a p,
    ckptStep_best_acc_le s t a p⟩, ?_, ?_⟩
  · intro accs ps a n
    by_cases han : a ≤ n
    · unfold epochDriver
      rw [show n + 1 - a = (n - a) + 1 from by omega]
      rw [List.range'_1_concat a (n - a)]
      rw [List.foldl_append]
      simp only [List.foldl_cons, List.foldl_nil]
      exact ckptStep_best_acc_le _ _ _ _
    · unfold epochDriver
      rw [show n - a = 0 from by omega, show n + 1 - a = 0 from by omega]
  · intro accs ps a n
    unfold epochDriver
    rw [ckptFold_latest]
    simp

/-- The spec's simulated run: accuracies [70, 65, 80, 75, 90] produce best
snapshots exactly at the strict improvements 70, 80, 90 and a latest
snapshot at every epoch. -/
theorem epochDriver_simulated_run :
    (epochDriver (fun t => ([70, 65, 80, 75, 90].getD t 0 : Rat)) (fun t => t) 0 5).best_saves
        = [(0, (70 : Rat), 0), (2, (80 : Rat), 2), (4, (90 : Rat), 4)] ∧
      (epochDriver (fun t => ([70, 65, 80, 75, 90].getD t 0 : Rat)) (fun t => t) 0
          5).latest_saves = [(0, 0), (1, 1), (2, 2), (3, 3), (4, 4)] := by
  constructor <;> rfl


/-- Claim C5: main's resume precondition succeeds exactly on the consistent
combinations: a supplied snapshot requires a strictly positive starting
epoch, an absent snapshot requires starting epoch exactly zero; every other
combination trips the assertion.  The spec's three concrete cases are
included. -/
theorem c5_resume_precondition :
    (∀ (c : Option String) (e : Int),
        resumePrecondition c e = true ↔ ((∃ f, c = some f) ∧ 0 < e) ∨ (c = none ∧ e = 0)) ∧
      resumePrecondition (some ckptName) 0 = false ∧
      resumePrecondition none 3 = false ∧
      resumePrecondition (some ckptName) 3 = true := by
  refine ⟨?_, by decide, by decide, by decide⟩
  intro c e
  cases c <;> simp [resumePrecondition]

/-- Claim C3: train returns the sum of the individual per-batch losses (the
ghost loss history) divided by the static total batch count of the stream,
for every combined stream, model and shuffle oracle. -/
theorem c3_train_average_loss {I L P : Type} (cl : CombinedLoader I L) (M : ModelDyn I L P)
    (p0 : P) (epoch : Nat) (orders : Nat → List String) (log_freq : Nat)
    (hlf : 0 < log_freq) (hnb : 0 < count_batches_in_combined_loader cl) :
    train cl M p0 epoch orders log_freq
      = ((trainRun cl M p0 epoch orders log_freq).losses).sum
          / (count_batches_in_combined_loader cl : Rat) := by
  unfold train
  rw [(trainRun_inv cl M p0 epoch orders log_freq).2.2.1]

/-- Witness for C3 at the concrete stream of c1_witness. -/
theorem c3_witness :
    (0 : Nat) < 2 ∧ 0 < count_batches_in_combined_loader witnessLoader ∧
    train witnessLoader constModel 0 7 witnessOrders 2
      = ((trainRun witnessLoader constModel 0 7 witnessOrders 2).losses).sum
          / (count_batches_in_combined_loader witnessLoader : Rat) :=
  ⟨by decide, by decide,
    c3_train_average_loss witnessLoader constModel 0 7 witnessOrders 2 (by decide) (by decide)⟩

/-- Claim C4: validate returns the pair (accumulated loss divided by the
static batch total, 100 times the count of processed rows whose argmax
prediction equals their label divided by the static sample total), the
denominators being the precomputed static counts. -/
theorem c4_validate_metrics {I L P : Type} [DecidableEq L] (cl : CombinedLoader I L)
    (M : ModelDyn I L P) (p0 : P)
    (hnb : 0 < count_batches_in_combined_loader cl)
    (hns : 0 < count_samples_in_combined_loader cl) :
    validate cl M p0
      = (((validRun cl M p0).losses).sum / (count_batches_in_combined_loader cl : Rat),
         100 * (((validRun cl M p0).processed.flatten.countP
               (fun xy => decide (M.predict p0 xy.1 = xy.2))) : Rat)
             / (count_samples_in_combined_loader cl : Rat)) := by
  obtain ⟨h1, h2, h3⟩ := validRun_inv cl M p0
  unfold validate
  rw [h2, h3]
  rw [Prod.ext_iff]
  refine ⟨rfl, ?_⟩
  simp only
  ring

/-- Witness for C4 at the concrete stream of c1_witness. -/
theorem c4_witness :
    0 < count_batches_in_combined_loader witnessLoader ∧
    0 < count_samples_in_combined_loader witnessLoader ∧
    validate witnessLoader constModel 0
      = (((validRun witnessLoader constModel 0).losses).sum
            / (count_batches_in_combined_loader witnessLoader : Rat),
         100 * (((validRun witnessLoader constModel 0).processed.flatten.countP
               (fun xy => decide (constModel.predict 0 xy.1 = xy.2))) : Rat)
             / (count_samples_in_combined_loader witnessLoader : Rat)) :=
  ⟨by decide, by decide, c4_validate_metrics witnessLoader constModel 0 (by decide) (by decide)⟩

/-- Claim C10: a validation epoch leaves the model's parameter snapshot
unchanged: the final state of validate's loop carries exactly the initial
parameters, for every combined stream and model. -/
theorem c10_validate_preserves_params {I L P : Type} [DecidableEq L]
    (cl : CombinedLoader I L) (M : ModelDyn I L P) (p0 : P) :
    (validRun cl M p0).params = p0 :=
  (validRun_inv cl M p0).1

/-- Counterexample to claim C6.  Stream: bucket 2s has a batch of 2 rows
then a batch of 3 rows (dataset size 5), buckets 3s and 4s are empty;
log_freq = 1; every loss is 1.  While processing the second batch the code
emits the single record (epoch 0, sample 3, total 5, average 2): the sample
figure is batch_n * len(X) = 1 * 3, recomputed from the current batch (the
rows processed so far number 2 before that batch and 5 including it, never
3), and the average is (L1+L2)/1 = 2, whereas total loss over batches
processed so far divided by their number is (L1+L2)/2 = 1 (or L1/1 = 1
counting only completed batches) — so the record the claim predicts differs
in both fields. -/
theorem c6_counterexample :
    (trainRun (threeLoaders (SourceLoader.mk [[(0, 0), (0, 0)], [(0, 0), (0, 0), (0, 0)]] 5)
          (SourceLoader.mk ([] : List (Batch Nat Nat)) 0) (SourceLoader.mk [] 0))
        constModel 0 0 (fun _ => inputLengths) 1).logs
      = [{ epoch := 0, sample := 3, n_samples := 5, avg_loss := 2 }] ∧
      (2 : Rat) ≠ (1 + 1) / 2 ∧ (2 : Rat) ≠ 1 / 1 ∧
      (3 : Nat) ≠ 2 ∧ (3 : Nat) ≠ 5 := by
  refine ⟨?_, by norm_num, by norm_num, by decide, by decide⟩
  have e1 : List.range (numSteps (threeLoaders
      (SourceLoader.mk [[(0, 0), (0, 0)], [(0, 0), (0, 0), (0, 0)]] 5)
      (SourceLoader.mk ([] : List (Batch Nat Nat)) 0) (SourceLoader.mk [] 0))) = [0, 1] := rfl
  have c02 : combinedBatch (threeLoaders
      (SourceLoader.mk [[(0, 0), (0, 0)], [(0, 0), (0, 0), (0, 0)]] 5)
      (SourceLoader.mk ([] : List (Batch Nat Nat)) 0) (SourceLoader.mk [] 0)) 0 key2s
      = some [(0, 0), (0, 0)] := rfl
  have c03 : combinedBatch (threeLoaders
      (SourceLoader.mk [[(0, 0), (0, 0)], [(0, 0), (0, 0), (0, 0)]] 5)
      (SourceLoader.mk ([] : List (Batch Nat Nat)) 0) (SourceLoader.mk [] 0)) 0 key3s
      = none := rfl
  have c04 : combinedBatch (threeLoaders
      (SourceLoader.mk [[(0, 0), (0, 0)], [(0, 0), (0, 0), (0, 0)]] 5)
      (SourceLoader.mk ([] : List (Batch Nat Nat)) 0) (SourceLoader.mk [] 0)) 0 key4s
      = none := rfl
  have c12 : combinedBatch (threeLoaders
      (SourceLoader.mk [[(0, 0), (0, 0)], [(0, 0), (0, 0), (0, 0)]] 5)
      (SourceLoader.mk ([] : List (Batch Nat Nat)) 0) (SourceLoader.mk [] 0)) 1 key2s
      = some [(0, 0), (0, 0), (0, 0)] := rfl
  have c13 : combinedBatch (threeLoaders
      (SourceLoader.mk [[(0, 0), (0, 0)], [(0, 0), (0, 0), (0, 0)]] 5)
      (SourceLoader.mk ([] : List (Batch Nat Nat)) 0) (SourceLoader.mk [] 0)) 1 key3s
      = none := rfl
  have c14 : combinedBatch (threeLoaders
      (SourceLoader.mk [[(0, 0), (0, 0)], [(0, 0), (0, 0), (0, 0)]] 5)
      (SourceLoader.mk ([] : List (Batch Nat Nat)) 0) (SourceLoader.mk [] 0)) 1 key4s
      = none := rfl
  unfold trainRun
  rw [e1]
  simp only [List.foldl_cons, List.foldl_nil, trainStep, inputLengths, c02, c03, c04, c12,
    c13, c14, processTrainBatch, constModel]
  norm_num [expectedLogs]
  rfl

/-- Claim C6 as amended: train's progress records are exactly one per
processed-batch index k that is nonzero and divisible by log_freq,
carrying the epoch, the sample figure k * (length of the k-th processed
batch) — a value recomputed from the current batch during iteration, not
taken from the static totals — the static total sample count, and the
accumulated loss including the current batch (the first k+1 losses)
divided by k. -/
theorem c6_amended_progress_records {I L P : Type} (cl : CombinedLoader I L)
    (M : ModelDyn I L P) (p0 : P) (epoch : Nat) (orders : Nat → List String)
    (log_freq : Nat) (hlf : 0 < log_freq) :
    (trainRun cl M p0 epoch orders log_freq).logs
      = expectedLogs epoch (count_samples_in_combined_loader cl) log_freq
          (trainRun cl M p0 epoch orders log_freq).processed
          (trainRun cl M p0 epoch orders log_freq).losses :=
  (trainRun_inv cl M p0 epoch orders log_freq).2.2.2

/-- Witness for the amended C6 at the concrete stream of the
counterexample. -/
theorem c6_witness :
    (0 : Nat) < 1 ∧
    (trainRun (threeLoaders (SourceLoader.mk [[(0, 0), (0, 0)], [(0, 0), (0, 0), (0, 0)]] 5)
          (SourceLoader.mk ([] : List (Batch Nat Nat)) 0) (SourceLoader.mk [] 0))
        constModel 0 0 (fun _ => inputLengths) 1).logs
      = expectedLogs 0
          (count_samples_in_combined_loader
            (threeLoaders (SourceLoader.mk [[(0, 0), (0, 0)], [(0, 0), (0, 0), (0, 0)]] 5)
              (SourceLoader.mk ([] : List (Batch Nat Nat)) 0) (SourceLoader.mk [] 0))) 1
          (trainRun (threeLoaders
              (SourceLoader.mk [[(0, 0), (0, 0)], [(0, 0), (0, 0), (0, 0)]] 5)
              (SourceLoader.mk ([] : List (Batch Nat Nat)) 0) (SourceLoader.mk [] 0))
            constModel 0 0 (fun _ => inputLengths) 1).processed
          (trainRun (threeLoaders
              (SourceLoader.mk [[(0, 0), (0, 0)], [(0, 0), (0, 0), (0, 0)]] 5)
              (SourceLoader.mk ([] : List (Batch Nat Nat)) 0) (SourceLoader.mk [] 0))
            constModel 0 0 (fun _ => inputLengths) 1).losses :=
  ⟨by decide,
    c6_amended_progress_records
      (threeLoaders (SourceLoader.mk [[(0, 0), (0, 0)], [(0, 0), (0, 0), (0, 0)]] 5)
        (SourceLoader.mk ([] : List (Batch Nat Nat)) 0) (SourceLoader.mk [] 0))
      constModel 0 0 (fun _ => inputLengths) 1 (by decide)⟩

/-- Claim C7: a bucket whose entry in the combined batch is the None
sentinel is skipped with no effect at all on the loop state (counters,
running loss, correct count, ghost history); equivalently, an outer step
behaves as if the exhausted buckets were removed from the traversal
order. -/
theorem c7_none_sentinel_skipped {I L P : Type} [DecidableEq L] :
    (∀ (M : ModelDyn I L P) (epoch n_samples log_freq : Nat) (s : TrainState I L P),
        processTrainBatch M epoch n_samples log_freq s none = s) ∧
    (∀ (M : ModelDyn I L P) (s : ValidState I L P), processValidBatch M s none = s) ∧
    (∀ (M : ModelDyn I L P) (epoch n_samples log_freq : Nat) (s : TrainState I L P)
        (order : List String) (f : String → Option (Batch I L)),
        trainStep M epoch n_samples log_freq s order f
          = trainStep M epoch n_samples log_freq s
              (order.filter (fun key => (f key).isSome)) f) ∧
    (∀ (M : ModelDyn I L P) (s : ValidState I L P) (order : List String)
        (f : String → Option (Batch I L)),
        validStep M s order f = validStep M s (order.filter (fun key => (f key).isSome)) f) := by
  refine ⟨fun M epoch n_samples log_freq s => rfl, fun M s => rfl, ?_, ?_⟩
  · intro M epoch n_samples log_freq s order f
    induction order generalizing s with
    | nil => rfl
    | cons a rest ih =>
      simp only [List.filter_cons]
      cases h : f a with
      | none =>
        simp only [Option.isSome_none, Bool.false_eq_true, if_false]
        rw [show trainStep M epoch n_samples log_freq s (a :: rest) f
            = trainStep M epoch n_samples log_freq
                (processTrainBatch M epoch n_samples log_freq s (f a)) rest f from rfl]
        rw [h]
        exact ih s
      | some b =>
        simp only [Option.isSome_some, if_true]
        rw [show trainStep M epoch n_samples log_freq s (a :: rest) f
            = trainStep M epoch n_samples log_freq
                (processTrainBatch M epoch n_samples log_freq s (f a)) rest f from rfl]
        rw [show trainStep M epoch n_samples log_freq s
              (a :: rest.filter (fun key => (f key).isSome)) f
            = trainStep M epoch n_samples log_freq
                (processTrainBatch M epoch n_samples log_freq s (f a))
                (rest.filter (fun key => (f key).isSome)) f from rfl]
        exact ih _
  · intro M s order f
    induction order generalizing s with
    | nil => rfl
    | cons a rest ih =>
      simp only [List.filter_cons]
      cases h : f a with
      | none =>
        simp only [Option.isSome_none, Bool.false_eq_true, if_false]
        rw [show validStep M s (a :: rest) f
            = validStep M (processValidBatch M s (f a)) rest f from rfl]
        rw [h]
        exact ih s
      | some b =>
        simp only [Option.isSome_some, if_true]
        rw [show validStep M s (a :: rest) f
            = validStep M (processValidBatch M s (f a)) rest f from rfl]
        rw [show validStep M s (a :: rest.filter (fun key => (f key).isSome)) f
            = validStep M (processValidBatch M s (f a))
                (rest.filter (fun key => (f key).isSome)) f from rfl]
        exact ih _

end Riser
